import Mathlib

/-!
Shallow embedding of the document/file-access subsystem of the RPS_new
recruitment backend (`services/fileService.js`, `middleware/upload.js` /
`middleware/serveFiles.js`, `models/FileDocument.js`), together with
theorems settling the specification claims about it.

Identifiers (Mongo ObjectIds) are modelled as `Nat`, timestamps as `Nat`
(milliseconds), and the metadata store as a list of records.  Fallible
operations return `Except AppError _` paired with the post-state, since
the JavaScript code can mutate state before raising.
-/

/-- Error type mirroring `AppError(message, statusCode)` from `utils/appError.js`. -/
structure AppError where
  message : String
  status : Nat
deriving Repr, DecidableEq

/-- A requesting principal: the `req.user` fields the file subsystem consults
(`_id` and `role`). -/
structure Principal where
  id : Nat
  role : String
deriving Repr, DecidableEq

/-- The slice of `models/Candidate.js` consulted by `checkFileAccess`:
`createdBy` (required) and `assignedTo` (optional). -/
structure Candidate where
  id : Nat
  createdBy : Nat
  assignedTo : Option Nat
deriving Repr, DecidableEq

/-- A FileDocument row (`models/FileDocument.js`), restricted to the fields the
file subsystem reads or writes.  `verificationNotes` stands for
`metadata.verificationNotes`.  Schema defaults: `accessLevel = "internal"`,
`virusScanStatus = "pending"`, `accessCount = 0`, `isVerified = false`,
`isDeleted = false`. -/
structure FileRecord where
  id : Nat
  originalName : String
  fileName : String
  fileType : String
  mimeType : String
  size : Nat
  url : String
  s3Key : String
  bucket : String
  category : String
  entityType : String
  entityId : Nat
  accessLevel : String
  allowedUsers : List Nat
  uploadedBy : Nat
  isVerified : Bool
  verifiedBy : Option Nat
  verifiedAt : Option Nat
  verificationNotes : Option String
  virusScanStatus : String
  lastAccessedBy : Option Nat
  lastAccessedAt : Option Nat
  accessCount : Nat
  isDeleted : Bool
  deletedBy : Option Nat
  deletedAt : Option Nat
deriving Repr, DecidableEq

/-- Embeds `FileService.hasAccess(file, userId)` (`services/fileService.js:224-250`):
admin roles, uploader, allow-list, public, internal-and-not-client.  Note that
this evaluator has no Candidate-entity rule. -/
def hasAccess (file : FileRecord) (user : Principal) : Bool :=
  if ["super_admin", "admin"].contains user.role then true
  else if file.uploadedBy == user.id then true
  else if file.allowedUsers.contains user.id then true
  else if file.accessLevel == "public" then true
  else if file.accessLevel == "internal" && user.role != "client" then true
  else false

/-- Embeds `checkFileAccess(fileDoc, user)` (`middleware/serveFiles.js`-part of
`middleware/upload.js:223-263`): the same five rules plus the Candidate-entity
extension (creator or currently assigned user of the owning Candidate); a
missing Candidate simply fails the rule.  `findCandidate` abstracts
`Candidate.findById`. -/
def checkFileAccess (findCandidate : Nat → Option Candidate)
    (fileDoc : FileRecord) (user : Principal) : Bool :=
  if ["admin", "super_admin"].contains user.role then true
  else if fileDoc.uploadedBy == user.id then true
  else if fileDoc.allowedUsers.any (fun i => i == user.id) then true
  else if fileDoc.accessLevel == "public" then true
  else if fileDoc.accessLevel == "internal" && user.role != "client" then true
  else if fileDoc.entityType == "Candidate" then
    match findCandidate fileDoc.entityId with
    | some candidate =>
        candidate.createdBy == user.id || candidate.assignedTo == some user.id
    | none => false
  else false

/-- Test fixture: a FileDocument row carrying the schema defaults
(`accessLevel = "internal"`, `virusScanStatus = "pending"`, `accessCount = 0`,
`isVerified = false`, `isDeleted = false`). -/
def baseFile : FileRecord :=
  { id := 1
    originalName := "resume.pdf"
    fileName := "1700000000000_ab_resume.pdf"
    fileType := "pdf"
    mimeType := "application/pdf"
    size := 2048
    url := "/uploads/Candidate/7/resume/1700000000000_ab_resume.pdf"
    s3Key := "Candidate/7/resume/1700000000000_ab_resume.pdf"
    bucket := "local"
    category := "resume"
    entityType := "Candidate"
    entityId := 7
    accessLevel := "internal"
    allowedUsers := []
    uploadedBy := 10
    isVerified := false
    verifiedBy := none
    verifiedAt := none
    verificationNotes := none
    virusScanStatus := "pending"
    lastAccessedBy := none
    lastAccessedAt := none
    accessCount := 0
    isDeleted := false
    deletedBy := none
    deletedAt := none }

/-- Test fixture: Candidate 7 was created by user 99 and is currently assigned
to user 20. -/
def candidateLookupEx : Nat → Option Candidate :=
  fun i => if i == 7 then some ⟨7, 99, some 20⟩ else none

/-- Test fixture: a confidential file owned by Candidate 7, uploaded by user 10. -/
def candidateFileEx : FileRecord :=
  { baseFile with accessLevel := "confidential" }

/-- Test fixture: the recruiter (user 20) to whom Candidate 7 is assigned. -/
def assignedPrincipalEx : Principal := ⟨20, "recruiter"⟩

/-- System state: the FileDocument collection plus the set of blob keys present
on disk under `uploads/`, both modelled as lists. -/
structure SysState where
  files : List FileRecord
  blobs : List String
deriving Repr, DecidableEq

/-- Embeds `FileDocument.findById(fileId)`. -/
def findById (files : List FileRecord) (fileId : Nat) : Option FileRecord :=
  files.find? (fun f => f.id == fileId)

/-- Saving a loaded document back (`file.save()`): the row with the matching id
is replaced. -/
def updateById (files : List FileRecord) (fileId : Nat) (newFile : FileRecord) :
    List FileRecord :=
  files.map (fun f => if f.id == fileId then newFile else f)

/-- Embeds `FileService.getFile(fileId, userId)` (`services/fileService.js:128-158`):
404 when the row is absent or soft-deleted, 403 when `hasAccess` denies;
otherwise the access-tracking fields are updated and saved, and only then is
the blob's presence on disk checked (a missing blob yields a 404 after the
tracking mutation was already persisted, which the paired post-state records). -/
def getFile (st : SysState) (fileId : Nat) (user : Principal) (now : Nat) :
    Except AppError FileRecord × SysState :=
  match findById st.files fileId with
  | none => (.error ⟨"File not found", 404⟩, st)
  | some file =>
    if file.isDeleted then (.error ⟨"File not found", 404⟩, st)
    else if hasAccess file user = false then
      (.error ⟨"You do not have permission to access this file", 403⟩, st)
    else
      let tracked := { file with
        lastAccessedBy := some user.id
        lastAccessedAt := some now
        accessCount := file.accessCount + 1 }
      let st' : SysState := { st with files := updateById st.files fileId tracked }
      if st.blobs.contains file.s3Key then (.ok tracked, st')
      else (.error ⟨"File not found on disk", 404⟩, st')

/-- Embeds the `serveFile` middleware (`middleware/serveFiles.js`-part of
`middleware/upload.js:161-220`): record lookup by storage key with
`isDeleted: false` in the query; anonymous callers may read only
`accessLevel = "public"` files, authenticated callers go through
`checkFileAccess`; the blob is then streamed, and access tracking is updated
only when `req.user` is present (the streamed record is the pre-update row). -/
def serveFile (st : SysState) (pathKey : String) (user : Option Principal)
    (findCandidate : Nat → Option Candidate) (now : Nat) :
    Except AppError FileRecord × SysState :=
  match st.files.find? (fun f => f.s3Key == pathKey && f.isDeleted == false) with
  | none => (.error ⟨"File not found", 404⟩, st)
  | some fileDoc =>
    match user with
    | none =>
      if fileDoc.accessLevel != "public" then
        (.error ⟨"Authentication required", 401⟩, st)
      else if st.blobs.contains pathKey = false then
        (.error ⟨"File not found on disk", 404⟩, st)
      else (.ok fileDoc, st)
    | some u =>
      if checkFileAccess findCandidate fileDoc u = false then
        (.error ⟨"Access denied", 403⟩, st)
      else if st.blobs.contains pathKey = false then
        (.error ⟨"File not found on disk", 404⟩, st)
      else
        let tracked := { fileDoc with
          lastAccessedBy := some u.id
          lastAccessedAt := some now
          accessCount := fileDoc.accessCount + 1 }
        (.ok fileDoc, { st with files := updateById st.files fileDoc.id tracked })

/-- Embeds `FileService.deleteFile(fileId, userId)` (`services/fileService.js:179-200`):
404 when absent, 403 unless the caller is the uploader, otherwise the
soft-delete flags are stamped and saved.  The blob is not touched here (physical
deletion is a separate, delayed action). -/
def deleteFile (st : SysState) (fileId : Nat) (userId : Nat) (now : Nat) :
    Except AppError FileRecord × SysState :=
  match findById st.files fileId with
  | none => (.error ⟨"File not found", 404⟩, st)
  | some file =>
    if file.uploadedBy != userId then
      (.error ⟨"You can only delete files you uploaded", 403⟩, st)
    else
      let deleted := { file with
        isDeleted := true
        deletedBy := some userId
        deletedAt := some now }
      (.ok deleted, { st with files := updateById st.files fileId deleted })

/-- Embeds `FileService.verifyDocument(fileId, userId, status, notes)`
(`services/fileService.js:203-221`): 404 when absent (no `isDeleted` filter),
then sets `isVerified` from the status string, stamps reviewer and time, and
records non-empty notes. -/
def verifyDocument (st : SysState) (fileId : Nat) (userId : Nat) (status : String)
    (notes : Option String) (now : Nat) : Except AppError FileRecord × SysState :=
  match findById st.files fileId with
  | none => (.error ⟨"File not found", 404⟩, st)
  | some file =>
    let verified := { file with
      isVerified := status == "approved"
      verifiedBy := some userId
      verifiedAt := some now
      verificationNotes :=
        match notes with
        | some n => if n == "" then file.verificationNotes else some n
        | none => file.verificationNotes }
    (.ok verified, { st with files := updateById st.files fileId verified })

/-- Embeds `FileService.bulkVerify(fileIds, userId, status)`
(`services/fileService.js:336-347`): `updateMany` over `_id ∈ fileIds` (no
`isDeleted` filter), returning the modified count. -/
def bulkVerify (st : SysState) (fileIds : List Nat) (userId : Nat) (status : String)
    (now : Nat) : SysState × Nat :=
  ({ st with files := st.files.map (fun f =>
      if fileIds.contains f.id then
        { f with
          isVerified := status == "approved"
          verifiedBy := some userId
          verifiedAt := some now }
      else f) },
   (st.files.filter (fun f => fileIds.contains f.id)).length)

/-- Embeds `FileService.getEntityDocuments(entityType, entityId, category)`
(`services/fileService.js:318-333`): query filtered on the owner reference,
`isDeleted: false`, and optionally the category.  The `-createdAt` sort and the
uploader/verifier population are presentation-only and not modelled. -/
def getEntityDocuments (files : List FileRecord) (entityType : String)
    (entityId : Nat) (category : Option String) : List FileRecord :=
  files.filter (fun f =>
    f.entityType == entityType && f.entityId == entityId && f.isDeleted == false &&
      (match category with
       | some c => f.category == c
       | none => true))

/-- Test fixture: the base file soft-deleted by its uploader at time 1000. -/
def deletedFileEx : FileRecord :=
  { baseFile with isDeleted := true, deletedBy := some 10, deletedAt := some 1000 }

/-- Test fixture: `deletedFileEx` after `verifyDocument(_, 5, "approved", _)`
ran at time 2000. -/
def verifiedDeletedEx : FileRecord :=
  { deletedFileEx with isVerified := true, verifiedBy := some 5, verifiedAt := some 2000 }

/-- Test fixture: a public file whose blob is present, in a one-row store. -/
def publicFileEx : FileRecord :=
  { baseFile with accessLevel := "public" }

/-- Test fixture: store holding only `publicFileEx` with its blob on disk. -/
def publicStateEx : SysState :=
  ⟨[publicFileEx], [publicFileEx.s3Key]⟩

/-- The keyword table of `determineCategoryFromFieldName`
(`services/fileService.js:254-271`), in the object-literal order JavaScript
iterates it. -/
def categoryMap : List (String × String) :=
  [("resume", "resume"),
   ("cv", "resume"),
   ("certificate", "education_certificate"),
   ("education", "education_certificate"),
   ("experience", "experience_letter"),
   ("relieving", "relieving_letter"),
   ("payslip", "payslip"),
   ("salary", "payslip"),
   ("bank", "bank_statement"),
   ("offer", "offer_letter"),
   ("aadhaar", "kyc_document"),
   ("pan", "kyc_document"),
   ("passport", "kyc_document"),
   ("photo", "photo"),
   ("agreement", "agreement"),
   ("policy", "policy_document")]

/-- JS `String.prototype.toLowerCase` on the ASCII field names in play:
character-wise lowering. -/
def jsToLower (s : String) : String := ⟨s.data.map Char.toLower⟩

/-- Helper for the JS `String.prototype.includes`: does `pat` start `l`? -/
def leadingChars : List Char → List Char → Bool
  | [], _ => true
  | _ :: _, [] => false
  | p :: ps, c :: cs => p == c && leadingChars ps cs

/-- Helper for the JS `String.prototype.includes`: does `pat` occur anywhere
in the character list? -/
def substrChars (pat : List Char) : List Char → Bool
  | [] => pat.isEmpty
  | c :: cs => leadingChars pat (c :: cs) || substrChars pat cs

/-- JS `s.includes(kw)`: substring containment. -/
def includesKw (s kw : String) : Bool := substrChars kw.data s.data

/-- Embeds `FileService.determineCategoryFromFieldName(fieldName)`
(`services/fileService.js:253-282`): lower-case the field name, walk the
keyword table in order, return the category of the first keyword contained in
the name, else `"other"`. -/
def determineCategoryFromFieldName (fieldName : String) : String :=
  let lowerFieldName := jsToLower fieldName
  match categoryMap.find? (fun kv => includesKw lowerFieldName kv.1) with
  | some kv => kv.2
  | none => "other"

/-- The fields of a multer in-memory file consumed by `uploadSingle`. -/
structure UploadFile where
  originalname : String
  mimetype : String
  size : Nat
deriving Repr, DecidableEq

/-- Per-call nondeterminism of `uploadSingle`: the generated document id, the
`Date.now()` timestamp, and the random hex string. -/
structure UploadCtx where
  newId : Nat
  timestamp : Nat
  randomString : String
deriving Repr, DecidableEq

/-- One step of `originalName.replace(/[^a-zA-Z0-9]/g, '_')`. -/
def sanitizeChar (c : Char) : Char := if c.isAlphanum then c else '_'

/-- JS `s.split('.').pop()`: the part after the last dot (the whole string when
no dot occurs). -/
def lastDotPart (s : String) : String := ⟨(s.data.splitOn '.').getLastD []⟩

/-- JS `s.split('.')[0]`: the part before the first dot. -/
def firstDotPart (s : String) : String := ⟨(s.data.splitOn '.').headD []⟩

/-- Embeds `FileService.generateFileName(originalName, entityType, entityId, category)`
(`services/fileService.js:41-51`), with the timestamp and random string passed
in: `entityType/entityId/category/timestamp_random_sanitizedBase.extension`. -/
def generateFileName (originalName entityType : String) (entityId : Nat)
    (category : String) (timestamp : Nat) (randomString : String) : String :=
  let extension := lastDotPart originalName
  let sanitizedName : String := ⟨((firstDotPart originalName).data.map sanitizeChar).take 50⟩
  entityType ++ "/" ++ toString entityId ++ "/" ++ category ++ "/" ++
    toString timestamp ++ "_" ++ randomString ++ "_" ++ sanitizedName ++ "." ++ extension

/-- The `new FileDocument({...})` literal built by `uploadSingle`
(`services/fileService.js:75-88`) together with the schema defaults of
`models/FileDocument.js`: `virusScanStatus = "pending"`,
`accessLevel = "internal"`, `accessCount = 0`, flags false, audit fields
unset. -/
def mkFileDocument (file : UploadFile) (entityType : String) (entityId : Nat)
    (uploadedBy : Nat) (category : String) (ctx : UploadCtx) : FileRecord :=
  let fileName := generateFileName file.originalname entityType entityId category
    ctx.timestamp ctx.randomString
  { id := ctx.newId
    originalName := file.originalname
    fileName := ⟨(fileName.data.splitOn '/').getLastD []⟩
    fileType := lastDotPart file.originalname
    mimeType := file.mimetype
    size := file.size
    url := "/uploads/" ++ fileName
    s3Key := fileName
    bucket := "local"
    category := category
    entityType := entityType
    entityId := entityId
    accessLevel := "internal"
    allowedUsers := []
    uploadedBy := uploadedBy
    isVerified := false
    verifiedBy := none
    verifiedAt := none
    verificationNotes := none
    virusScanStatus := "pending"
    lastAccessedBy := none
    lastAccessedAt := none
    accessCount := 0
    isDeleted := false
    deletedBy := none
    deletedAt := none }

/-- Embeds `FileService.uploadSingle(file, entityType, entityId, uploadedBy, category)`
(`services/fileService.js:54-100`): write the blob, then persist the metadata
row, then fire the asynchronous virus scan and return the row; the two oracle
booleans stand for the two fallible writes, and any failure surfaces as the
catch-all `AppError('File upload failed', 500)`.  A blob failure leaves the
state untouched; a metadata failure after a successful blob write leaves the
orphan blob behind. -/
def uploadSingle (st : SysState) (file : UploadFile) (entityType : String)
    (entityId uploadedBy : Nat) (category : String) (ctx : UploadCtx)
    (blobWriteOk metaWriteOk : Bool) : Except AppError FileRecord × SysState :=
  let fileName := generateFileName file.originalname entityType entityId category
    ctx.timestamp ctx.randomString
  if blobWriteOk = false then
    (.error ⟨"File upload failed", 500⟩, st)
  else
    let stBlob : SysState := { st with blobs := st.blobs ++ [fileName] }
    if metaWriteOk = false then
      (.error ⟨"File upload failed", 500⟩, stBlob)
    else
      let doc := mkFileDocument file entityType entityId uploadedBy category ctx
      (.ok doc, { stBlob with files := stBlob.files ++ [doc] })

/-- The body of the deferred `initiateVirusScan` timer
(`services/fileService.js:284-298`): `findByIdAndUpdate(fileId,
{ virusScanStatus: 'clean', ... })`, firing after the upload already returned. -/
def virusScanComplete (st : SysState) (fileId : Nat) : SysState :=
  { st with files := st.files.map (fun f =>
      if f.id == fileId then { f with virusScanStatus := "clean" } else f) }

/-- The (fieldName, file) pairs of a `req.files` object, in the iteration order
of `uploadMultiple`'s nested `for` loops (`services/fileService.js:107-121`). -/
def jobList (files : List (String × List UploadFile)) : List (String × UploadFile) :=
  files.flatMap (fun p => p.2.map (fun f => (p.1, f)))

/-- JS object assignment `uploadedFiles[fieldName] = doc`
(`services/fileService.js:117`): overwrite the field's slot if present, append
otherwise. -/
def setKey (m : List (String × FileRecord)) (k : String) (v : FileRecord) :
    List (String × FileRecord) :=
  if m.any (fun p => p.1 == k) then m.map (fun p => if p.1 == k then (k, v) else p)
  else m ++ [(k, v)]

/-- One promise completion inside `uploadMultiple`: job `i` (an index into
`jobList`) finishes its `uploadSingle` (classifying the field name, persisting
blob and row — both writes assumed to succeed) and its `.then` callback stores
the record under the field name, overwriting any previous record of that
field. -/
def uploadStep (files : List (String × List UploadFile)) (entityType : String)
    (entityId uploadedBy : Nat) (ctx : Nat → UploadCtx)
    (acc : List (String × FileRecord) × SysState) (i : Nat) :
    List (String × FileRecord) × SysState :=
  match (jobList files)[i]? with
  | some job =>
      let doc := mkFileDocument job.2 entityType entityId uploadedBy
        (determineCategoryFromFieldName job.1) (ctx i)
      (setKey acc.1 job.1 doc,
       { files := acc.2.files ++ [doc], blobs := acc.2.blobs ++ [doc.s3Key] })
  | none => acc

/-- Embeds `FileService.uploadMultiple(files, entityType, entityId, uploadedBy)`
(`services/fileService.js:103-125`) with the concurrency made explicit:
`ctx i` supplies job `i`'s generated id/timestamp/randomness and `order` is the
order in which the concurrent uploads complete (a permutation of the job
indices); the call returns the `uploadedFiles` object and the store after all
completions. -/
def uploadMultiple (st : SysState) (files : List (String × List UploadFile))
    (entityType : String) (entityId uploadedBy : Nat) (ctx : Nat → UploadCtx)
    (order : List Nat) : List (String × FileRecord) × SysState :=
  order.foldl (uploadStep files entityType entityId uploadedBy ctx) ([], st)

/-- Test fixture: first file uploaded under the `resume` field. -/
def fileA : UploadFile := ⟨"a.pdf", "application/pdf", 1⟩

/-- Test fixture: second file uploaded under the same `resume` field. -/
def fileB : UploadFile := ⟨"b.pdf", "application/pdf", 2⟩

/-- Test fixture: a `req.files` object whose single field carries two files. -/
def multiFilesEx : List (String × List UploadFile) := [("resume", [fileA, fileB])]

/-- Test fixture: deterministic ids/timestamps for the two concurrent jobs. -/
def ctxEx : Nat → UploadCtx := fun i => ⟨i + 1, 1700, "r"⟩

/-- Test fixture: the record job 0 (fileA) persists. -/
def docA : FileRecord :=
  mkFileDocument fileA "Candidate" 7 10 (determineCategoryFromFieldName "resume") (ctxEx 0)

/-- Test fixture: the record job 1 (fileB) persists. -/
def docB : FileRecord :=
  mkFileDocument fileB "Candidate" 7 10 (determineCategoryFromFieldName "resume") (ctxEx 1)

/-- The 30-day grace period of the purge sweep, in milliseconds. -/
def gracePeriodMs : Nat := 30 * 24 * 60 * 60 * 1000

/-- The selection predicate of the cleanup query
(`services/fileService.js:354-357`): soft-deleted, with `deletedAt` strictly
older than thirty days before the sweep time. -/
def purgeEligible (now : Nat) (f : FileRecord) : Bool :=
  f.isDeleted &&
    (match f.deletedAt with
     | some t => decide (t + gracePeriodMs < now)
     | none => false)

/-- One iteration of the cleanup loop (`services/fileService.js:359-368`):
`fs.unlink` the blob, then `findByIdAndDelete` the row, the whole pair wrapped
in a per-record try/catch.  When the blob is absent `unlink` throws, the catch
logs, and — crucially — the row deletion after it is skipped. -/
def purgeOne (st : SysState) (file : FileRecord) : SysState :=
  if st.blobs.contains file.s3Key then
    { files := st.files.filter (fun f => f.id != file.id),
      blobs := st.blobs.filter (fun k => k != file.s3Key) }
  else st

/-- Embeds `FileService.cleanupDeletedFiles()` (`services/fileService.js:350-369`):
select the soft-deleted rows past the grace period from the current store, then
run the per-record purge over them in order. -/
def cleanupDeletedFiles (st : SysState) (now : Nat) : SysState :=
  (st.files.filter (purgeEligible now)).foldl purgeOne st

/-- Test fixture: an eligible soft-deleted row whose blob is still on disk. -/
def purgeReadyEx : FileRecord :=
  { baseFile with id := 1, s3Key := "k1", isDeleted := true, deletedAt := some 0 }

/-- Test fixture: an eligible soft-deleted row whose blob is already absent. -/
def orphanRowEx : FileRecord :=
  { baseFile with id := 2, s3Key := "k2", isDeleted := true, deletedAt := some 0 }

/-- Test fixture: a live row the sweep must not touch. -/
def liveRowEx : FileRecord :=
  { baseFile with id := 3, s3Key := "k3" }

/-- Test fixture: a sweep time past the grace period of the deleted rows. -/
def sweepNowEx : Nat := 2592000001

/-- Test fixture: store holding the three rows, with only `purgeReadyEx`'s blob
on disk. -/
def sweepStateEx : SysState :=
  ⟨[purgeReadyEx, orphanRowEx, liveRowEx], ["k1"]⟩

lemma hasAccess_iff (file : FileRecord) (user : Principal) :
    hasAccess file user = true ↔
      (user.role = "super_admin" ∨ user.role = "admin")
      ∨ file.uploadedBy = user.id
      ∨ user.id ∈ file.allowedUsers
      ∨ file.accessLevel = "public"
      ∨ (file.accessLevel = "internal" ∧ user.role ≠ "client") := by
  unfold hasAccess
  split_ifs with h1 h2 h3 h4 h5
  · simp at h1
    simp [h1]
  · rw [beq_iff_eq] at h2
    simp [h2]
  · simp at h3
    simp [h3]
  · rw [beq_iff_eq] at h4
    simp [h4]
  · simp only [Bool.and_eq_true, beq_iff_eq, bne_iff_ne] at h5
    simp
    tauto
  · simp_all

lemma checkFileAccess_iff (findCandidate : Nat → Option Candidate)
    (fileDoc : FileRecord) (user : Principal) :
    checkFileAccess findCandidate fileDoc user = true ↔
      (user.role = "admin" ∨ user.role = "super_admin")
      ∨ fileDoc.uploadedBy = user.id
      ∨ user.id ∈ fileDoc.allowedUsers
      ∨ fileDoc.accessLevel = "public"
      ∨ (fileDoc.accessLevel = "internal" ∧ user.role ≠ "client")
      ∨ (fileDoc.entityType = "Candidate" ∧
          ∃ candidate, findCandidate fileDoc.entityId = some candidate ∧
            (candidate.createdBy = user.id ∨ candidate.assignedTo = some user.id)) := by
  unfold checkFileAccess
  split_ifs with h1 h2 h3 h4 h5 h6
  · simp at h1
    simp [h1]
  · rw [beq_iff_eq] at h2
    simp [h2]
  · simp only [List.any_eq_true, beq_iff_eq] at h3
    obtain ⟨i, hi, rfl⟩ := h3
    simp [hi]
  · rw [beq_iff_eq] at h4
    simp [h4]
  · simp only [Bool.and_eq_true, beq_iff_eq, bne_iff_ne] at h5
    simp
    tauto
  · simp at h1
    simp only [beq_iff_eq] at h2 h4 h6
    simp only [List.any_eq_true, beq_iff_eq] at h3
    simp only [Bool.and_eq_true, beq_iff_eq, bne_iff_ne] at h5
    cases hc : findCandidate fileDoc.entityId with
    | none => simp_all
    | some candidate =>
        simp only [beq_iff_eq, Bool.or_eq_true]
        constructor
        · intro h
          exact Or.inr (Or.inr (Or.inr (Or.inr (Or.inr
            ⟨h6, candidate, rfl, by tauto⟩))))
        · rintro (h | h | h | h | h | ⟨-, c, hc2, hcr⟩)
          · tauto
          · tauto
          · exact absurd ⟨_, h, rfl⟩ h3
          · tauto
          · tauto
          · cases hc2
            tauto
  · simp only [List.any_eq_true, beq_iff_eq] at h3
    simp_all

/-- C1: `checkFileAccess` grants read access exactly when one of the six
specified rules holds: admin/super_admin role, uploader, allow-list membership,
public access level, internal access level with a non-client role, or — for a
file owned by a Candidate — the principal being that Candidate's creator or
currently assigned user, with a missing Candidate counting as the rule failing
rather than as an error. -/
theorem checkFileAccess_grants_iff_rules (findCandidate : Nat → Option Candidate)
    (fileDoc : FileRecord) (user : Principal) :
    checkFileAccess findCandidate fileDoc user = true ↔
      (user.role = "admin" ∨ user.role = "super_admin")
      ∨ fileDoc.uploadedBy = user.id
      ∨ user.id ∈ fileDoc.allowedUsers
      ∨ fileDoc.accessLevel = "public"
      ∨ (fileDoc.accessLevel = "internal" ∧ user.role ≠ "client")
      ∨ (fileDoc.entityType = "Candidate" ∧
          ∃ candidate, findCandidate fileDoc.entityId = some candidate ∧
            (candidate.createdBy = user.id ∨ candidate.assignedTo = some user.id)) :=
  checkFileAccess_iff findCandidate fileDoc user

/-- C2 counterexample: for the non-deleted confidential file of Candidate 7,
the Candidate's assigned user is denied by `FileService.hasAccess` (used by
`getFile`) but granted by `checkFileAccess` (used by `serveFile`), so the two
policy checks do not compute the same decision. -/
theorem hasAccess_checkFileAccess_disagree :
    candidateFileEx.isDeleted = false
    ∧ hasAccess candidateFileEx assignedPrincipalEx = false
    ∧ checkFileAccess candidateLookupEx candidateFileEx assignedPrincipalEx = true := by
  refine ⟨rfl, rfl, rfl⟩

/-- C2 corrected: `hasAccess` realizes only rules 1-5 of the §4.2 evaluator,
omitting the Candidate-entity extension, so it refines `checkFileAccess` in one
direction only: whenever `getFile`'s check grants, `serveFile`'s check grants,
and on every file whose `entityType` is not `Candidate` the two decisions are
equal. -/
theorem hasAccess_refines_checkFileAccess (findCandidate : Nat → Option Candidate)
    (file : FileRecord) (user : Principal) :
    (hasAccess file user = true → checkFileAccess findCandidate file user = true)
    ∧ (file.entityType ≠ "Candidate" →
        checkFileAccess findCandidate file user = hasAccess file user) := by
  constructor
  · intro h
    refine (checkFileAccess_iff findCandidate file user).mpr ?_
    have h2 := (hasAccess_iff file user).mp h
    tauto
  · intro hent
    cases hA : hasAccess file user with
    | true =>
        have hC := (checkFileAccess_iff findCandidate file user).mpr
          (by have h2 := (hasAccess_iff file user).mp hA; tauto)
        rw [hC]
    | false =>
        cases hC : checkFileAccess findCandidate file user with
        | false => rfl
        | true =>
            exfalso
            have hA' : ¬ hasAccess file user = true := by simp [hA]
            rcases (checkFileAccess_iff findCandidate file user).mp hC with h | h | h | h | h | h
            · exact hA' ((hasAccess_iff file user).mpr (by tauto))
            · exact hA' ((hasAccess_iff file user).mpr (by tauto))
            · exact hA' ((hasAccess_iff file user).mpr (by tauto))
            · exact hA' ((hasAccess_iff file user).mpr (by tauto))
            · exact hA' ((hasAccess_iff file user).mpr (by tauto))
            · exact hent h.1

/-- Witness for the corrected C2 theorem: the uploader of the confidential
Candidate file is granted by `hasAccess`, hence also by `checkFileAccess`. -/
theorem hasAccess_refines_checkFileAccess_witness :
    checkFileAccess candidateLookupEx candidateFileEx ⟨10, "recruiter"⟩ = true :=
  (hasAccess_refines_checkFileAccess candidateLookupEx candidateFileEx ⟨10, "recruiter"⟩).1 rfl

/-- C3 counterexample: `verifyDocument` does not treat a soft-deleted record as
absent — on a store holding only the soft-deleted row it succeeds and rewrites
the row's verification fields, so not every state-mutating operation leaves a
soft-deleted record unmodified. -/
theorem verifyDocument_mutates_softDeleted_record :
    deletedFileEx.isDeleted = true
    ∧ verifyDocument ⟨[deletedFileEx], []⟩ 1 5 "approved" none 2000 =
        (.ok verifiedDeletedEx, ⟨[verifiedDeletedEx], []⟩)
    ∧ verifiedDeletedEx ≠ deletedFileEx := by
  refine ⟨rfl, rfl, by decide⟩

/-- C3 corrected: a soft-deleted record is hidden from reads (`getFile` answers
NotFound and leaves the state unchanged) and from entity listings, and its row
is retained in the store; but the mutating operations do not exclude it:
`verifyDocument` rewrites its verification fields, `bulkVerify` does so whenever
its id is listed, and `deleteFile` re-stamps its deletion fields for the
uploader. -/
theorem softDelete_hides_reads_but_not_mutations (st : SysState)
    (fileId userId : Nat) (user : Principal) (now : Nat) (status : String)
    (fileIds : List Nat) (file : FileRecord)
    (hfind : findById st.files fileId = some file) (hdel : file.isDeleted = true) :
    getFile st fileId user now = (.error ⟨"File not found", 404⟩, st)
    ∧ file ∈ st.files
    ∧ (∀ et ei cat, ∀ f ∈ getEntityDocuments st.files et ei cat, f.isDeleted = false)
    ∧ (verifyDocument st fileId userId status none now).1 =
        .ok { file with
          isVerified := status == "approved"
          verifiedBy := some userId
          verifiedAt := some now }
    ∧ (fileId ∈ fileIds →
        { file with
          isVerified := status == "approved"
          verifiedBy := some userId
          verifiedAt := some now } ∈ (bulkVerify st fileIds userId status now).1.files)
    ∧ (userId = file.uploadedBy →
        (deleteFile st fileId userId now).1 =
          .ok { file with isDeleted := true, deletedBy := some userId, deletedAt := some now }) := by
  have hfind' : st.files.find? (fun f => f.id == fileId) = some file := hfind
  have hid : file.id = fileId := by
    have h := List.find?_some hfind'
    simpa using h
  have hmem : file ∈ st.files := List.mem_of_find?_eq_some hfind'
  refine ⟨?_, hmem, ?_, ?_, ?_, ?_⟩
  · simp [getFile, hfind, hdel]
  · intro et ei cat f hf
    simp only [getEntityDocuments, List.mem_filter, Bool.and_eq_true, beq_iff_eq] at hf
    simpa using hf.2.1.2
  · simp [verifyDocument, hfind]
  · intro hin
    have : (fileIds.contains file.id) = true := by
      simp [hid, hin]
    simp only [bulkVerify]
    refine List.mem_map.mpr ⟨file, hmem, ?_⟩
    simp [this]
    intro hno
    exact absurd (by rw [hid]; exact hin) hno
  · intro hup
    simp [deleteFile, hfind, hup]

/-- Witness for the corrected C3 theorem at a concrete soft-deleted store. -/
theorem softDelete_hides_reads_but_not_mutations_witness :
    getFile ⟨[deletedFileEx], []⟩ 1 ⟨10, "recruiter"⟩ 5 =
      (.error ⟨"File not found", 404⟩, ⟨[deletedFileEx], []⟩) :=
  (softDelete_hides_reads_but_not_mutations ⟨[deletedFileEx], []⟩ 1 5 ⟨10, "recruiter"⟩ 5
    "approved" [] deletedFileEx rfl rfl).1

/-- C4: on a store where the looked-up row is soft-deleted (and every row under
the requested storage key is soft-deleted), both `getFile` and `serveFile`
answer NotFound (404) and return no record, although the metadata row is still
present in the store. -/
theorem softDeleted_getFile_serveFile_notFound (st : SysState) (fileId : Nat)
    (user : Principal) (now : Nat) (key : String) (anyUser : Option Principal)
    (findCandidate : Nat → Option Candidate) (file : FileRecord)
    (hfind : findById st.files fileId = some file) (hdel : file.isDeleted = true)
    (hkey : ∀ f ∈ st.files, f.s3Key = key → f.isDeleted = true) :
    (getFile st fileId user now).1 = .error ⟨"File not found", 404⟩
    ∧ (serveFile st key anyUser findCandidate now).1 = .error ⟨"File not found", 404⟩
    ∧ file ∈ st.files := by
  have hfind' : st.files.find? (fun f => f.id == fileId) = some file := hfind
  refine ⟨?_, ?_, List.mem_of_find?_eq_some hfind'⟩
  · simp [getFile, hfind, hdel]
  · have hnone : st.files.find? (fun f => f.s3Key == key && f.isDeleted == false) = none := by
      refine List.find?_eq_none.mpr ?_
      intro f hf
      simp only [Bool.and_eq_true, beq_iff_eq, beq_eq_false_iff_ne, not_and]
      intro hk
      simp [hkey f hf hk]
    unfold serveFile
    rw [hnone]

/-- Witness for C4 at a concrete soft-deleted store. -/
theorem softDeleted_getFile_serveFile_notFound_witness :
    (getFile ⟨[deletedFileEx], []⟩ 1 ⟨99, "admin"⟩ 7).1 = .error ⟨"File not found", 404⟩ :=
  (softDeleted_getFile_serveFile_notFound ⟨[deletedFileEx], []⟩ 1 ⟨99, "admin"⟩ 7
    deletedFileEx.s3Key none (fun _ => none) deletedFileEx rfl rfl
    (by intro f hf hk; cases hf with
        | head => rfl
        | tail _ h => cases h)).1

/-- C5: `deleteFile` soft-deletes exactly when the caller is the uploader.  The
uploader's id is the only thing consulted — the caller's role never enters
`deleteFile`, so admins and super_admins get the same 403 as anyone else — and
on denial the whole state, hence every field of the record, is unchanged. -/
theorem deleteFile_soft_deletes_iff_uploader (st : SysState) (fileId : Nat)
    (user : Principal) (now : Nat) (file : FileRecord)
    (hfind : findById st.files fileId = some file) :
    (user.id = file.uploadedBy →
      deleteFile st fileId user.id now =
        (.ok { file with isDeleted := true, deletedBy := some user.id, deletedAt := some now },
         { st with files := (updateById st.files fileId
            { file with isDeleted := true, deletedBy := some user.id, deletedAt := some now }) }))
    ∧ (user.id ≠ file.uploadedBy →
        deleteFile st fileId user.id now =
          (.error ⟨"You can only delete files you uploaded", 403⟩, st)) := by
  constructor
  · intro hup
    simp [deleteFile, hfind, hup]
  · intro hup
    have hne : (file.uploadedBy != user.id) = true := by
      simp [bne_iff_ne]
      exact fun h => hup h.symm
    simp [deleteFile, hfind, hne]

/-- Witness for C5: an admin who did not upload `baseFile` is refused, while
the state is untouched; instantiated from the theorem at a concrete store. -/
theorem deleteFile_soft_deletes_iff_uploader_witness :
    deleteFile ⟨[baseFile], [baseFile.s3Key]⟩ 1 99 5 =
      (.error ⟨"You can only delete files you uploaded", 403⟩,
       ⟨[baseFile], [baseFile.s3Key]⟩) :=
  (deleteFile_soft_deletes_iff_uploader ⟨[baseFile], [baseFile.s3Key]⟩ 1 ⟨99, "admin"⟩ 5
    baseFile rfl).2 (by decide)

/-- C7 counterexample: an unauthenticated caller successfully reads the public
file through `serveFile`, yet the state is completely unchanged — `accessCount`
stays 0 and `lastAccessedBy/At` stay unset — so not every successful read
updates the tracking fields. -/
theorem serveFile_anonymous_read_does_not_track :
    (serveFile publicStateEx publicFileEx.s3Key none (fun _ => none) 5).1 = .ok publicFileEx
    ∧ (serveFile publicStateEx publicFileEx.s3Key none (fun _ => none) 5).2 = publicStateEx
    ∧ publicFileEx.accessCount = 0
    ∧ publicFileEx.lastAccessedBy = none := by
  exact ⟨rfl, rfl, rfl, rfl⟩

lemma getFile_ok_inv (st : SysState) (fileId : Nat) (user : Principal) (now : Nat)
    (doc : FileRecord) (h : (getFile st fileId user now).1 = .ok doc) :
    ∃ file, findById st.files fileId = some file ∧ file.isDeleted = false ∧
      hasAccess file user = true ∧ st.blobs.contains file.s3Key = true ∧
      doc = { file with
        lastAccessedBy := some user.id
        lastAccessedAt := some now
        accessCount := file.accessCount + 1 } := by
  unfold getFile at h
  cases hf : findById st.files fileId with
  | none => rw [hf] at h; simp at h
  | some file =>
      rw [hf] at h
      dsimp only at h
      by_cases hd : file.isDeleted = true
      · rw [if_pos hd] at h
        simp at h
      · rw [if_neg hd] at h
        by_cases ha : hasAccess file user = false
        · rw [if_pos ha] at h
          simp at h
        · rw [if_neg ha] at h
          by_cases hb : st.blobs.contains file.s3Key = true
          · rw [if_pos hb] at h
            dsimp only at h
            simp only [Except.ok.injEq] at h
            exact ⟨file, rfl, by simpa using hd, by simpa using ha, hb, h.symm⟩
          · rw [if_neg hb] at h
            simp at h

lemma getFile_eq_ok (st : SysState) (fileId : Nat) (user : Principal) (now : Nat)
    (file : FileRecord) (hf : findById st.files fileId = some file)
    (hd : file.isDeleted = false) (ha : hasAccess file user = true)
    (hb : st.blobs.contains file.s3Key = true) :
    getFile st fileId user now =
      (.ok { file with
          lastAccessedBy := some user.id
          lastAccessedAt := some now
          accessCount := file.accessCount + 1 },
       { files := (updateById st.files fileId
          { file with
            lastAccessedBy := some user.id
            lastAccessedAt := some now
            accessCount := file.accessCount + 1 }),
         blobs := st.blobs }) := by
  unfold getFile
  rw [hf]
  dsimp only
  rw [if_neg (by rw [hd]; simp), if_neg (by rw [ha]; simp), if_pos hb]

lemma serveFile_auth_ok_inv (st : SysState) (key : String) (user : Principal)
    (findCandidate : Nat → Option Candidate) (now : Nat) (doc : FileRecord)
    (h : (serveFile st key (some user) findCandidate now).1 = .ok doc) :
    st.files.find? (fun f => f.s3Key == key && f.isDeleted == false) = some doc ∧
      checkFileAccess findCandidate doc user = true ∧
      st.blobs.contains key = true := by
  unfold serveFile at h
  cases hf : st.files.find? (fun f => f.s3Key == key && f.isDeleted == false) with
  | none => rw [hf] at h; simp at h
  | some fileDoc =>
      rw [hf] at h
      dsimp only at h
      by_cases hc : checkFileAccess findCandidate fileDoc user = false
      · rw [if_pos hc] at h
        simp at h
      · rw [if_neg hc] at h
        by_cases hb : st.blobs.contains key = false
        · rw [if_pos hb] at h
          simp at h
        · rw [if_neg hb] at h
          dsimp only at h
          simp only [Except.ok.injEq] at h
          subst h
          exact ⟨rfl, by simpa using hc, by simpa using hb⟩

lemma serveFile_auth_eq_ok (st : SysState) (key : String) (user : Principal)
    (findCandidate : Nat → Option Candidate) (now : Nat) (fileDoc : FileRecord)
    (hf : st.files.find? (fun f => f.s3Key == key && f.isDeleted == false) = some fileDoc)
    (hc : checkFileAccess findCandidate fileDoc user = true)
    (hb : st.blobs.contains key = true) :
    serveFile st key (some user) findCandidate now =
      (.ok fileDoc,
       { files := (updateById st.files fileDoc.id
          { fileDoc with
            lastAccessedBy := some user.id
            lastAccessedAt := some now
            accessCount := fileDoc.accessCount + 1 }),
         blobs := st.blobs }) := by
  unfold serveFile
  rw [hf]
  dsimp only
  rw [if_neg (by rw [hc]; simp), if_neg (by rw [hb]; simp)]

/-- C7 corrected: a successful *authenticated* read — `getFile`, or `serveFile`
with a logged-in principal — bumps `accessCount` by exactly one and stamps
`lastAccessedBy`/`lastAccessedAt` with the principal and the read time, leaving
every other field and every other row unchanged (the post-state is the
single-row `updateById` rewrite and the blobs are untouched); a successful
unauthenticated `serveFile` read leaves the state entirely unchanged. -/
theorem successful_read_tracking_frame :
    (∀ st fileId user now doc, (getFile st fileId user now).1 = .ok doc →
      ∃ file, findById st.files fileId = some file ∧
        doc = { file with
          lastAccessedBy := some user.id
          lastAccessedAt := some now
          accessCount := file.accessCount + 1 } ∧
        (getFile st fileId user now).2 =
          { files := updateById st.files fileId doc, blobs := st.blobs })
    ∧ (∀ st key user findCandidate now doc,
        (serveFile st key (some user) findCandidate now).1 = .ok doc →
        (serveFile st key (some user) findCandidate now).2 =
          { files := (updateById st.files doc.id
              { doc with
                lastAccessedBy := some user.id
                lastAccessedAt := some now
                accessCount := doc.accessCount + 1 }),
            blobs := st.blobs })
    ∧ (∀ st key findCandidate now,
        (serveFile st key none findCandidate now).2 = st) := by
  refine ⟨?_, ?_, ?_⟩
  · intro st fileId user now doc h
    obtain ⟨file, hf, hd, ha, hb, hdoc⟩ := getFile_ok_inv st fileId user now doc h
    refine ⟨file, hf, hdoc, ?_⟩
    rw [getFile_eq_ok st fileId user now file hf hd ha hb, hdoc]
  · intro st key user findCandidate now doc h
    obtain ⟨hf, hc, hb⟩ := serveFile_auth_ok_inv st key user findCandidate now doc h
    rw [serveFile_auth_eq_ok st key user findCandidate now doc hf hc hb]
  · intro st key findCandidate now
    unfold serveFile
    cases hf : st.files.find? (fun f => f.s3Key == key && f.isDeleted == false) with
    | none => rfl
    | some fileDoc =>
        dsimp only
        by_cases h1 : (fileDoc.accessLevel != "public") = true
        · rw [if_pos h1]
        · rw [if_neg h1]
          by_cases h2 : st.blobs.contains key = false
          · rw [if_pos h2]
          · rw [if_neg h2]

/-- Witness for the corrected C7 theorem: the uploader reads `publicFileEx`
through `getFile`; the tracking update is exactly the frame the theorem
states. -/
theorem successful_read_tracking_frame_witness :
    ∃ file, findById publicStateEx.files 1 = some file ∧
      { publicFileEx with
        lastAccessedBy := some (10 : Nat)
        lastAccessedAt := some (77 : Nat)
        accessCount := 1 } = { file with
          lastAccessedBy := some (10 : Nat)
          lastAccessedAt := some (77 : Nat)
          accessCount := file.accessCount + 1 } ∧
      (getFile publicStateEx 1 ⟨10, "recruiter"⟩ 77).2 =
        { files := updateById publicStateEx.files 1
            { publicFileEx with
              lastAccessedBy := some (10 : Nat)
              lastAccessedAt := some (77 : Nat)
              accessCount := 1 },
          blobs := publicStateEx.blobs } := by
  have h := successful_read_tracking_frame.1 publicStateEx 1 ⟨10, "recruiter"⟩ 77
    { publicFileEx with
      lastAccessedBy := some (10 : Nat)
      lastAccessedAt := some (77 : Nat)
      accessCount := 1 } rfl
  exact h

/-- C9 counterexample: keyword matching is first-match-wins in table order, so a
field name containing `certificate` does not always classify as
`education_certificate` — `resume_certificate` contains `certificate` yet
classifies as `resume`. -/
theorem determineCategory_containment_counterexample :
    includesKw (jsToLower "resume_certificate") "certificate" = true
    ∧ determineCategoryFromFieldName "resume_certificate" = "resume"
    ∧ determineCategoryFromFieldName "resume_certificate" ≠ "education_certificate" := by
  exact ⟨rfl, rfl, by decide⟩

lemma find?_category_cons_neg (L k v : String) (rest : List (String × String))
    (h : includesKw L k = false) :
    ((k, v) :: rest).find? (fun kv => includesKw L kv.1) =
      rest.find? (fun kv => includesKw L kv.1) :=
  List.find?_cons_of_neg _ (by simp [h])

lemma find?_category_cons_pos (L k v : String) (rest : List (String × String))
    (h : includesKw L k = true) :
    ((k, v) :: rest).find? (fun kv => includesKw L kv.1) = some (k, v) :=
  List.find?_cons_of_pos _ h

/-- C9 corrected: classification walks the fixed keyword table in order and the
first contained keyword wins.  A name containing `resume` or `cv` always maps
to `resume` (they head the table); a name containing `aadhaar`, `pan` or
`passport` maps to `kyc_document` provided no earlier keyword is contained; a
name containing `certificate` but neither `resume` nor `cv` maps to
`education_certificate`; a name containing no keyword maps to `other`; in
particular `certificate_2` maps to `education_certificate` and `randomField`
to `other`. -/
theorem determineCategory_keyword_rules :
    (∀ name, (includesKw (jsToLower name) "resume" = true
        ∨ includesKw (jsToLower name) "cv" = true) →
      determineCategoryFromFieldName name = "resume")
    ∧ (∀ name, (∀ kv ∈ categoryMap.take 10, includesKw (jsToLower name) kv.1 = false) →
        (includesKw (jsToLower name) "aadhaar" = true
          ∨ includesKw (jsToLower name) "pan" = true
          ∨ includesKw (jsToLower name) "passport" = true) →
        determineCategoryFromFieldName name = "kyc_document")
    ∧ (∀ name, includesKw (jsToLower name) "certificate" = true →
        includesKw (jsToLower name) "resume" = false →
        includesKw (jsToLower name) "cv" = false →
        determineCategoryFromFieldName name = "education_certificate")
    ∧ (∀ name, (∀ kv ∈ categoryMap, includesKw (jsToLower name) kv.1 = false) →
        determineCategoryFromFieldName name = "other")
    ∧ determineCategoryFromFieldName "certificate_2" = "education_certificate"
    ∧ determineCategoryFromFieldName "randomField" = "other" := by
  refine ⟨?_, ?_, ?_, ?_, rfl, rfl⟩
  · intro name h
    unfold determineCategoryFromFieldName
    dsimp only
    by_cases hr : includesKw (jsToLower name) "resume" = true
    · rw [show categoryMap.find? (fun kv => includesKw (jsToLower name) kv.1) =
          some ("resume", "resume") from find?_category_cons_pos _ _ _ _ hr]
    · have hr' : includesKw (jsToLower name) "resume" = false := by
        simpa using hr
      have hcv : includesKw (jsToLower name) "cv" = true := by
        rcases h with h | h
        · exact absurd h hr
        · exact h
      rw [show categoryMap.find? (fun kv => includesKw (jsToLower name) kv.1) =
          some ("cv", "resume") from by
        rw [categoryMap, find?_category_cons_neg _ _ _ _ hr']
        exact find?_category_cons_pos _ _ _ _ hcv]
  · intro name hearly hk
    have e1 := hearly ("resume", "resume") (by simp [categoryMap])
    have e2 := hearly ("cv", "resume") (by simp [categoryMap])
    have e3 := hearly ("certificate", "education_certificate") (by simp [categoryMap])
    have e4 := hearly ("education", "education_certificate") (by simp [categoryMap])
    have e5 := hearly ("experience", "experience_letter") (by simp [categoryMap])
    have e6 := hearly ("relieving", "relieving_letter") (by simp [categoryMap])
    have e7 := hearly ("payslip", "payslip") (by simp [categoryMap])
    have e8 := hearly ("salary", "payslip") (by simp [categoryMap])
    have e9 := hearly ("bank", "bank_statement") (by simp [categoryMap])
    have e10 := hearly ("offer", "offer_letter") (by simp [categoryMap])
    unfold determineCategoryFromFieldName
    dsimp only
    rw [categoryMap, find?_category_cons_neg _ _ _ _ e1, find?_category_cons_neg _ _ _ _ e2,
      find?_category_cons_neg _ _ _ _ e3, find?_category_cons_neg _ _ _ _ e4,
      find?_category_cons_neg _ _ _ _ e5, find?_category_cons_neg _ _ _ _ e6,
      find?_category_cons_neg _ _ _ _ e7, find?_category_cons_neg _ _ _ _ e8,
      find?_category_cons_neg _ _ _ _ e9, find?_category_cons_neg _ _ _ _ e10]
    by_cases ha : includesKw (jsToLower name) "aadhaar" = true
    · rw [find?_category_cons_pos _ _ _ _ ha]
    · have ha' : includesKw (jsToLower name) "aadhaar" = false := by simpa using ha
      rw [find?_category_cons_neg _ _ _ _ ha']
      by_cases hp : includesKw (jsToLower name) "pan" = true
      · rw [find?_category_cons_pos _ _ _ _ hp]
      · have hp' : includesKw (jsToLower name) "pan" = false := by simpa using hp
        rw [find?_category_cons_neg _ _ _ _ hp']
        have hpp : includesKw (jsToLower name) "passport" = true := by
          rcases hk with h | h | h
          · exact absurd h ha
          · exact absurd h hp
          · exact h
        rw [find?_category_cons_pos _ _ _ _ hpp]
  · intro name hc hr hcv
    unfold determineCategoryFromFieldName
    dsimp only
    rw [categoryMap, find?_category_cons_neg _ _ _ _ hr, find?_category_cons_neg _ _ _ _ hcv,
      find?_category_cons_pos _ _ _ _ hc]
  · intro name hnone
    unfold determineCategoryFromFieldName
    dsimp only
    rw [show categoryMap.find? (fun kv => includesKw (jsToLower name) kv.1) = none from
      List.find?_eq_none.mpr (fun kv hkv => by simp [hnone kv hkv])]

/-- Witness for the corrected C9 theorem: rule (c) applied to the concrete
field name `certificate_2`. -/
theorem determineCategory_keyword_rules_witness :
    determineCategoryFromFieldName "certificate_2" = "education_certificate" :=
  determineCategory_keyword_rules.2.2.1 "certificate_2" (by decide) (by decide) (by decide)

lemma find?_append_left_none {α : Type} (p : α → Bool) (l1 l2 : List α)
    (h : l1.find? p = none) : (l1 ++ l2).find? p = l2.find? p := by
  induction l1 with
  | nil => rfl
  | cons a t ih =>
      cases hpa : p a with
      | true =>
          rw [List.find?_cons_of_pos _ hpa] at h
          cases h
      | false =>
          rw [List.find?_cons_of_neg _ (by simp [hpa])] at h
          rw [List.cons_append, List.find?_cons_of_neg _ (by simp [hpa])]
          exact ih h

lemma virusScan_findById (files : List FileRecord) (blobs : List String)
    (doc : FileRecord) (hfresh : ∀ f ∈ files, f.id ≠ doc.id) :
    findById (virusScanComplete ⟨files ++ [doc], blobs⟩ doc.id).files doc.id =
      some { doc with virusScanStatus := "clean" } := by
  unfold virusScanComplete findById
  dsimp only
  rw [List.map_append, find?_append_left_none]
  · simp only [List.map_cons, List.map_nil]
    rw [show (if (doc.id == doc.id) = true then { doc with virusScanStatus := "clean" } else doc)
        = { doc with virusScanStatus := "clean" } from by simp]
    exact List.find?_cons_of_pos _ (by simp)
  · refine List.find?_eq_none.mpr ?_
    intro x hx
    obtain ⟨f, hf, rfl⟩ := List.mem_map.mp hx
    have hbeq : (f.id == doc.id) = false := by simpa using hfresh f hf
    rw [if_neg (by simp [hbeq])]
    simp [hbeq]

/-- C6: when the blob write fails, `uploadSingle` raises and persists no
metadata (the state is exactly the input state, whatever happens to the
metadata write); when both writes succeed, the returned record carries
`virusScanStatus = "pending"`, is already persisted at return time, and the
deferred scan transition later flips exactly that record to `"clean"`. -/
theorem uploadSingle_atomicity_and_pending_scan (st : SysState) (file : UploadFile)
    (entityType : String) (entityId uploadedBy : Nat) (category : String)
    (ctx : UploadCtx) (hfresh : ∀ f ∈ st.files, f.id ≠ ctx.newId) :
    (∀ metaWriteOk,
      uploadSingle st file entityType entityId uploadedBy category ctx false metaWriteOk =
        (.error ⟨"File upload failed", 500⟩, st))
    ∧ (∃ doc,
        (uploadSingle st file entityType entityId uploadedBy category ctx true true).1 =
          .ok doc
        ∧ doc.virusScanStatus = "pending"
        ∧ doc ∈ (uploadSingle st file entityType entityId uploadedBy category ctx true true).2.files
        ∧ findById (virusScanComplete
            (uploadSingle st file entityType entityId uploadedBy category ctx true true).2
            doc.id).files doc.id =
            some { doc with virusScanStatus := "clean" }) := by
  constructor
  · intro metaWriteOk
    rfl
  · refine ⟨mkFileDocument file entityType entityId uploadedBy category ctx, rfl, rfl, ?_, ?_⟩
    · exact List.mem_append_right _ (List.mem_singleton_self _)
    · exact virusScan_findById st.files
        (st.blobs ++ [generateFileName file.originalname entityType entityId category
          ctx.timestamp ctx.randomString])
        (mkFileDocument file entityType entityId uploadedBy category ctx) hfresh

/-- Witness for C6 on an empty store: the blob-failure branch raises and leaves
the store empty. -/
theorem uploadSingle_atomicity_and_pending_scan_witness :
    uploadSingle ⟨[], []⟩ ⟨"resume.pdf", "application/pdf", 2048⟩ "Candidate" 7 10
      "resume" ⟨1, 1700, "ab"⟩ false true =
      (.error ⟨"File upload failed", 500⟩, ⟨[], []⟩) :=
  (uploadSingle_atomicity_and_pending_scan ⟨[], []⟩ ⟨"resume.pdf", "application/pdf", 2048⟩
    "Candidate" 7 10 "resume" ⟨1, 1700, "ab"⟩ (by intro f hf; cases hf)).1 true

lemma setKey_keys (m : List (String × FileRecord)) (k : String) (v : FileRecord) :
    (setKey m k v).map Prod.fst =
      if m.any (fun p => p.1 == k) then m.map Prod.fst
      else m.map Prod.fst ++ [k] := by
  unfold setKey
  split_ifs with h
  · rw [List.map_map]
    refine List.map_congr_left ?_
    intro p hp
    by_cases hpk : (p.1 == k) = true
    · simp only [Function.comp_apply, if_pos hpk]
      exact (beq_iff_eq.mp hpk).symm
    · simp only [Function.comp_apply]
      rw [if_neg (by simpa using hpk)]
  · simp

lemma setKey_keys_nodup (m : List (String × FileRecord)) (k : String) (v : FileRecord)
    (h : (m.map Prod.fst).Nodup) : ((setKey m k v).map Prod.fst).Nodup := by
  rw [setKey_keys]
  split_ifs with hany
  · exact h
  · rw [List.nodup_append]
    refine ⟨h, List.nodup_singleton _, ?_⟩
    intro a ha hb
    rw [List.mem_singleton] at hb
    subst hb
    simp only [List.any_eq_true, beq_iff_eq] at hany
    obtain ⟨p, hp, hpk⟩ := List.mem_map.mp ha
    exact hany ⟨p, hp, hpk⟩

lemma setKey_keys_mem (m : List (String × FileRecord)) (k : String) (v : FileRecord)
    (fn : String) :
    fn ∈ (setKey m k v).map Prod.fst ↔ fn ∈ m.map Prod.fst ∨ fn = k := by
  rw [setKey_keys]
  split_ifs with hany
  · constructor
    · exact Or.inl
    · rintro (h | rfl)
      · exact h
      · simp only [List.any_eq_true, beq_iff_eq] at hany
        obtain ⟨p, hp, hpk⟩ := hany
        exact List.mem_map.mpr ⟨p, hp, hpk⟩
  · simp [List.mem_append]

lemma foldl_uploadStep_files_length (files : List (String × List UploadFile))
    (entityType : String) (entityId uploadedBy : Nat) (ctx : Nat → UploadCtx)
    (order : List Nat) (acc : List (String × FileRecord) × SysState)
    (h : ∀ i ∈ order, i < (jobList files).length) :
    ((order.foldl (uploadStep files entityType entityId uploadedBy ctx) acc).2.files).length =
      acc.2.files.length + order.length := by
  induction order generalizing acc with
  | nil => simp
  | cons i t ih =>
      rw [List.foldl_cons, ih _ (fun j hj => h j (List.mem_cons_of_mem _ hj))]
      have hi := h i (List.mem_cons_self _ _)
      obtain ⟨job, hjob⟩ : ∃ a, (jobList files)[i]? = some a :=
        ⟨_, List.getElem?_eq_getElem hi⟩
      unfold uploadStep
      rw [hjob]
      simp only [List.length_append, List.length_cons, List.length_nil]
      omega

lemma foldl_uploadStep_keys_nodup (files : List (String × List UploadFile))
    (entityType : String) (entityId uploadedBy : Nat) (ctx : Nat → UploadCtx)
    (order : List Nat) (acc : List (String × FileRecord) × SysState)
    (h : (acc.1.map Prod.fst).Nodup) :
    (((order.foldl (uploadStep files entityType entityId uploadedBy ctx) acc).1).map
      Prod.fst).Nodup := by
  induction order generalizing acc with
  | nil => exact h
  | cons i t ih =>
      rw [List.foldl_cons]
      refine ih _ ?_
      unfold uploadStep
      cases hjob : (jobList files)[i]? with
      | none => exact h
      | some job => exact setKey_keys_nodup _ _ _ h

lemma foldl_uploadStep_keys_mem (files : List (String × List UploadFile))
    (entityType : String) (entityId uploadedBy : Nat) (ctx : Nat → UploadCtx)
    (order : List Nat) (acc : List (String × FileRecord) × SysState) (fn : String)
    (h : ∀ i ∈ order, i < (jobList files).length) :
    fn ∈ ((order.foldl (uploadStep files entityType entityId uploadedBy ctx) acc).1).map
        Prod.fst ↔
      fn ∈ acc.1.map Prod.fst
        ∨ ∃ i ∈ order, ∃ job, (jobList files)[i]? = some job ∧ job.1 = fn := by
  induction order generalizing acc with
  | nil => simp
  | cons i t ih =>
      rw [List.foldl_cons, ih _ (fun j hj => h j (List.mem_cons_of_mem _ hj))]
      have hi := h i (List.mem_cons_self _ _)
      obtain ⟨job, hjob⟩ : ∃ a, (jobList files)[i]? = some a :=
        ⟨_, List.getElem?_eq_getElem hi⟩
      unfold uploadStep
      rw [hjob]
      dsimp only
      rw [setKey_keys_mem]
      constructor
      · rintro ((hm | rfl) | ⟨j, hj, job2, hjob2, hfn⟩)
        · exact Or.inl hm
        · exact Or.inr ⟨i, List.mem_cons_self _ _, job, hjob, rfl⟩
        · exact Or.inr ⟨j, List.mem_cons_of_mem _ hj, job2, hjob2, hfn⟩
      · rintro (hm | ⟨j, hj, job2, hjob2, hfn⟩)
        · exact Or.inl (Or.inl hm)
        · rcases List.mem_cons.mp hj with rfl | hj2
          · rw [hjob] at hjob2
            cases hjob2
            exact Or.inl (Or.inr hfn.symm)
          · exact Or.inr ⟨j, hj2, job2, hjob2, hfn⟩

/-- C10: when a field name carries several files, `uploadMultiple` persists one
record per file (the store grows by the total number of files), but the
returned object holds exactly one record per field name — keys are unique and
a field name appears exactly when one of its files was uploaded.  Which record
survives depends on the completion order: on the two-file fixture, completion
order `[0, 1]` returns fileB's record and order `[1, 0]` returns fileA's, while
in both runs both records are persisted in the store. -/
theorem uploadMultiple_one_record_per_field :
    (∀ st files entityType entityId uploadedBy ctx order,
        order.Perm (List.range (jobList files).length) →
        ((uploadMultiple st files entityType entityId uploadedBy ctx order).2.files.length =
          st.files.length + (jobList files).length)
        ∧ (((uploadMultiple st files entityType entityId uploadedBy ctx order).1).map
            Prod.fst).Nodup
        ∧ (∀ fn,
            fn ∈ ((uploadMultiple st files entityType entityId uploadedBy ctx order).1).map
              Prod.fst ↔ ∃ job ∈ jobList files, job.1 = fn))
    ∧ ((uploadMultiple ⟨[], []⟩ multiFilesEx "Candidate" 7 10 ctxEx [0, 1]).1 =
        [("resume", docB)]
      ∧ (uploadMultiple ⟨[], []⟩ multiFilesEx "Candidate" 7 10 ctxEx [1, 0]).1 =
        [("resume", docA)]
      ∧ docA ∈ (uploadMultiple ⟨[], []⟩ multiFilesEx "Candidate" 7 10 ctxEx [0, 1]).2.files
      ∧ docB ∈ (uploadMultiple ⟨[], []⟩ multiFilesEx "Candidate" 7 10 ctxEx [1, 0]).2.files
      ∧ docA ≠ docB) := by
  constructor
  · intro st files entityType entityId uploadedBy ctx order hperm
    have hbound : ∀ i ∈ order, i < (jobList files).length := by
      intro i hi
      exact List.mem_range.mp (hperm.mem_iff.mp hi)
    unfold uploadMultiple
    refine ⟨?_, ?_, ?_⟩
    · rw [foldl_uploadStep_files_length files entityType entityId uploadedBy ctx order _ hbound]
      simp [hperm.length_eq]
    · exact foldl_uploadStep_keys_nodup files entityType entityId uploadedBy ctx order
        ([], st) (by simp)
    · intro fn
      rw [foldl_uploadStep_keys_mem files entityType entityId uploadedBy ctx order
        ([], st) fn hbound]
      simp only [List.map_nil, List.not_mem_nil, false_or]
      constructor
      · rintro ⟨i, _, job, hjob, hfn⟩
        obtain ⟨hlt, heq⟩ := List.getElem?_eq_some.mp hjob
        exact ⟨job, heq ▸ List.getElem_mem hlt, hfn⟩
      · rintro ⟨job, hjob, hfn⟩
        obtain ⟨i, hlt, heq⟩ := List.mem_iff_getElem.mp hjob
        refine ⟨i, hperm.mem_iff.mpr (List.mem_range.mpr hlt), job, ?_, hfn⟩
        rw [List.getElem?_eq_getElem hlt, heq]
  · refine ⟨rfl, rfl, by decide, by decide, by decide⟩

/-- Witness for C10 at the concrete two-file fixture: the store ends with
exactly two records though the result object holds one. -/
theorem uploadMultiple_one_record_per_field_witness :
    (uploadMultiple ⟨[], []⟩ multiFilesEx "Candidate" 7 10 ctxEx [0, 1]).2.files.length =
      0 + (jobList multiFilesEx).length :=
  ((uploadMultiple_one_record_per_field.1 ⟨[], []⟩ multiFilesEx "Candidate" 7 10 ctxEx
    [0, 1] (by decide)).1)

lemma purgeOne_files_subset (s : SysState) (a : FileRecord) :
    ∀ g ∈ (purgeOne s a).files, g ∈ s.files := by
  unfold purgeOne
  split_ifs
  · intro g hg
    exact (List.mem_filter.mp hg).1
  · intro g hg
    exact hg

lemma purgeOne_blobs_subset (s : SysState) (a : FileRecord) :
    ∀ k ∈ (purgeOne s a).blobs, k ∈ s.blobs := by
  unfold purgeOne
  split_ifs
  · intro k hk
    exact (List.mem_filter.mp hk).1
  · intro k hk
    exact hk

lemma purgeOne_keep_file (s : SysState) (a : FileRecord) (g : FileRecord)
    (hg : g ∈ s.files) (hne : g.id ≠ a.id) : g ∈ (purgeOne s a).files := by
  unfold purgeOne
  split_ifs
  · exact List.mem_filter.mpr ⟨hg, by simpa using hne⟩
  · exact hg

lemma purgeOne_keep_blob (s : SysState) (a : FileRecord) (k : String)
    (hk : k ∈ s.blobs) (hne : k ≠ a.s3Key) : k ∈ (purgeOne s a).blobs := by
  unfold purgeOne
  split_ifs
  · exact List.mem_filter.mpr ⟨hk, by simpa using hne⟩
  · exact hk

lemma purgeOne_removes (s : SysState) (a : FileRecord) (hb : a.s3Key ∈ s.blobs) :
    (∀ g ∈ (purgeOne s a).files, g.id ≠ a.id) ∧ a.s3Key ∉ (purgeOne s a).blobs := by
  unfold purgeOne
  rw [if_pos (List.elem_iff.mpr hb)]
  constructor
  · intro g hg
    have h2 := (List.mem_filter.mp hg).2
    simpa using h2
  · intro hk
    have h2 := (List.mem_filter.mp hk).2
    simp at h2

lemma purgeOne_skip (s : SysState) (a : FileRecord) (hb : a.s3Key ∉ s.blobs) :
    purgeOne s a = s := by
  unfold purgeOne
  rw [if_neg (fun hc => hb (List.elem_iff.mp hc))]

lemma foldl_purgeOne_files_subset (l : List FileRecord) (s : SysState) :
    ∀ g ∈ (l.foldl purgeOne s).files, g ∈ s.files := by
  induction l generalizing s with
  | nil => intro g hg; exact hg
  | cons a t ih =>
      intro g hg
      exact purgeOne_files_subset s a g (ih (purgeOne s a) g hg)

lemma foldl_purgeOne_blobs_subset (l : List FileRecord) (s : SysState) :
    ∀ k ∈ (l.foldl purgeOne s).blobs, k ∈ s.blobs := by
  induction l generalizing s with
  | nil => intro k hk; exact hk
  | cons a t ih =>
      intro k hk
      exact purgeOne_blobs_subset s a k (ih (purgeOne s a) k hk)

lemma foldl_purgeOne_keep (l : List FileRecord) (s : SysState) (g : FileRecord)
    (hg : g ∈ s.files)
    (h : ∀ a ∈ l, g.id ≠ a.id ∨ (a = g ∧ g.s3Key ∉ s.blobs)) :
    g ∈ (l.foldl purgeOne s).files := by
  induction l generalizing s with
  | nil => exact hg
  | cons a t ih =>
      rw [List.foldl_cons]
      rcases h a (List.mem_cons_self _ _) with hne | ⟨rfl, hb⟩
      · refine ih (purgeOne s a) (purgeOne_keep_file s a g hg hne) ?_
        intro b hb2
        rcases h b (List.mem_cons_of_mem _ hb2) with hne2 | ⟨rfl, hb3⟩
        · exact Or.inl hne2
        · exact Or.inr ⟨rfl, fun hmem => hb3 (purgeOne_blobs_subset s a _ hmem)⟩
      · rw [purgeOne_skip s a hb]
        refine ih s hg ?_
        intro b hb2
        exact h b (List.mem_cons_of_mem _ hb2)

lemma foldl_purgeOne_removed (l : List FileRecord) (s : SysState) (f : FileRecord)
    (hf : f ∈ l) (hb : f.s3Key ∈ s.blobs)
    (hkeys : (l.map FileRecord.s3Key).Nodup) :
    (∀ g ∈ (l.foldl purgeOne s).files, g.id ≠ f.id) ∧
      f.s3Key ∉ (l.foldl purgeOne s).blobs := by
  induction l generalizing s with
  | nil => cases hf
  | cons a t ih =>
      rw [List.foldl_cons]
      rcases List.mem_cons.mp hf with rfl | hft
      · have hrem := purgeOne_removes s f hb
        constructor
        · intro g hg
          exact hrem.1 g (foldl_purgeOne_files_subset t (purgeOne s f) g hg)
        · intro hk
          exact hrem.2 (foldl_purgeOne_blobs_subset t (purgeOne s f) _ hk)
      · rw [List.map_cons] at hkeys
        have hnodup := List.nodup_cons.mp hkeys
        have hkne : f.s3Key ≠ a.s3Key := by
          intro he
          exact hnodup.1 (he ▸ List.mem_map.mpr ⟨f, hft, rfl⟩)
        exact ih (purgeOne s a) hft (purgeOne_keep_blob s a _ hb hkne) hnodup.2

/-- C8 counterexample: an eligible record whose blob is already absent is *not*
hard-deleted — `unlink` throws, the catch swallows it, and `findByIdAndDelete`
is skipped, so the metadata row survives the sweep (and every later sweep)
unchanged. -/
theorem cleanup_retains_metadata_when_blob_absent :
    purgeEligible sweepNowEx orphanRowEx = true
    ∧ cleanupDeletedFiles ⟨[orphanRowEx], []⟩ sweepNowEx = ⟨[orphanRowEx], []⟩ := by
  exact ⟨rfl, rfl⟩

/-- C8 corrected: the sweep processes every eligible record without ever
aborting: a record that is not eligible survives; an eligible record whose blob
is present loses both its blob and its metadata row; an eligible record whose
blob is absent is skipped (its row is retained, to be retried next sweep)
rather than raising; and the sweep only ever removes rows and blobs, so
re-running it over already-purged records finds nothing to do and cannot
error.  Distinctness of row ids and storage keys (schema-level uniqueness) is
assumed. -/
theorem cleanupDeletedFiles_sweep_behaviour (st : SysState) (now : Nat)
    (hids : (st.files.map FileRecord.id).Nodup)
    (hkeys : (st.files.map FileRecord.s3Key).Nodup) :
    (∀ f ∈ st.files, purgeEligible now f = false →
        f ∈ (cleanupDeletedFiles st now).files)
    ∧ (∀ f ∈ st.files, purgeEligible now f = true → f.s3Key ∈ st.blobs →
        (∀ g ∈ (cleanupDeletedFiles st now).files, g.id ≠ f.id)
        ∧ f.s3Key ∉ (cleanupDeletedFiles st now).blobs)
    ∧ (∀ f ∈ st.files, purgeEligible now f = true → f.s3Key ∉ st.blobs →
        f ∈ (cleanupDeletedFiles st now).files)
    ∧ (∀ g ∈ (cleanupDeletedFiles st now).files, g ∈ st.files)
    ∧ (∀ k ∈ (cleanupDeletedFiles st now).blobs, k ∈ st.blobs) := by
  have hinj : ∀ x ∈ st.files, ∀ y ∈ st.files, x.id = y.id → x = y := by
    intro x hx y hy hxy
    exact List.inj_on_of_nodup_map hids hx hy hxy
  refine ⟨?_, ?_, ?_, ?_, ?_⟩
  · intro f hf hel
    unfold cleanupDeletedFiles
    refine foldl_purgeOne_keep _ st f hf ?_
    intro a ha
    refine Or.inl ?_
    intro hid
    obtain ⟨hamem, hael⟩ := List.mem_filter.mp ha
    have : f = a := hinj f hf a hamem hid
    rw [this, hael] at hel
    cases hel
  · intro f hf hel hb
    unfold cleanupDeletedFiles
    refine foldl_purgeOne_removed _ st f (List.mem_filter.mpr ⟨hf, hel⟩) hb ?_
    exact ((List.filter_sublist _).map FileRecord.s3Key).nodup hkeys
  · intro f hf hel hb
    unfold cleanupDeletedFiles
    refine foldl_purgeOne_keep _ st f hf ?_
    intro a ha
    obtain ⟨hamem, _⟩ := List.mem_filter.mp ha
    by_cases hid : f.id = a.id
    · exact Or.inr ⟨(hinj f hf a hamem hid).symm, hb⟩
    · exact Or.inl hid
  · intro g hg
    exact foldl_purgeOne_files_subset _ st g hg
  · intro k hk
    exact foldl_purgeOne_blobs_subset _ st k hk

/-- Witness for the corrected C8 theorem on the three-row fixture: the live row
and the blobless eligible row survive the sweep, while the purgeable row's blob
is gone afterwards. -/
theorem cleanupDeletedFiles_sweep_behaviour_witness :
    liveRowEx ∈ (cleanupDeletedFiles sweepStateEx sweepNowEx).files
    ∧ orphanRowEx ∈ (cleanupDeletedFiles sweepStateEx sweepNowEx).files
    ∧ "k1" ∉ (cleanupDeletedFiles sweepStateEx sweepNowEx).blobs := by
  have h := cleanupDeletedFiles_sweep_behaviour sweepStateEx sweepNowEx
    (by decide) (by decide)
  refine ⟨?_, ?_, ?_⟩
  · exact h.1 liveRowEx (by decide) (by decide)
  · exact h.2.2.1 orphanRowEx (by decide) (by decide) (by decide)
  · exact (h.2.1 purgeReadyEx (by decide) (by decide) (by decide)).2
